import Mathlib

set_option exponentiation.threshold 2000

/-!
Verification of the llir/llvm IR core: memory instructions (load,
getelementptr), function/basic-block identifier assignment and printing,
and the half-precision float codec.  Definitions are shallow embeddings of
the Go source (`ir/inst_memory.go`, the `Function` file, and the floats
package); code absent from the repository snapshot is modelled from the
specification and marked as such in its doc comment.
-/

namespace LLIR

/-- LLVM types, mirroring the `types` package variants used by the memory
instructions: pointer, array, struct, named (with optional resolved
underlying definition, as in `Def() (Type, bool)`), plus scalar kinds. -/
inductive LType where
  | int (bits : Nat)
  | void
  | pointer (elem : LType)
  | array (len : Nat) (elem : LType)
  | struct (fields : List LType)
  | named (name : String) (underlying : Option LType)
  deriving Repr

/-- Values, as used by the memory instructions: a compile-time integer
constant (`constant.Int`, carrying its bit width and value) or any other
value carrying just its static type. -/
inductive Value where
  | constInt (bits : Nat) (val : Int)
  | var (name : String) (typ : LType)
  deriving Repr

/-- `Value.Type()`: a `constant.Int` has the corresponding integer type;
other values carry their type. -/
def Value.typ : Value → LType
  | .constInt bits _ => .int bits
  | .var _ t => t

/-- The failure conditions of instruction construction.  In the Go source
each is a `panic` with a distinct message; the embedding distinguishes them
as error values. -/
inductive ConstrError where
  | invalidSourceType
  | cannotIndexPointer
  | structIndexMustBeConstant
  | unresolvedNamedType
  | unsupportedIndexTarget
  | indexOutOfRange
  deriving Repr

/-- One step of the index walk in `NewGetElementPtr` (the loop body for an
index beyond the first): resolve a named type, then switch on the walked
type.  A Go runtime index-out-of-range panic on `t.Fields()[idx.Int64()]`
is modelled as `ConstrError.indexOutOfRange`. -/
def gepStep (e : LType) (index : Value) : Except ConstrError LType := do
  let e ← match e with
    | .named _ underlying =>
      match underlying with
      | some d => pure d
      | none => throw .unresolvedNamedType
    | _ => pure e
  match e with
  | .pointer _ => throw .cannotIndexPointer
  | .array _ elem => pure elem
  | .struct fields =>
    match index with
    | .constInt _ v =>
      if h : 0 ≤ v ∧ v.toNat < fields.length then
        pure (fields.get ⟨v.toNat, h.2⟩)
      else
        throw .indexOutOfRange
    | _ => throw .structIndexMustBeConstant
  | _ => throw .unsupportedIndexTarget

/-- The index walk of `NewGetElementPtr` over the indices beyond the first:
folds `gepStep` from the source element type. -/
def gepWalk (e : LType) : List Value → Except ConstrError LType
  | [] => pure e
  | index :: rest => do gepWalk (← gepStep e index) rest

/-- `InstGetElementPtr`: parent back-reference (modelled by name), result
name, instruction type, source address element type, source address, and
element indices. -/
structure InstGetElementPtr where
  parent : Option String
  name : String
  typ : LType
  elem : LType
  src : Value
  indices : List Value
  deriving Repr

/-- `NewGetElementPtr`: requires a pointer-typed source; walks the indices
with the first skipped (it only follows the pointer of `src`); the
instruction type is pointer-to the reached type. -/
def NewGetElementPtr (src : Value) (indices : List Value) :
    Except ConstrError InstGetElementPtr := do
  let elem ← match src.typ with
    | .pointer elem => pure elem
    | _ => throw .invalidSourceType
  let e ← match indices with
    | [] => pure elem
    | _ :: rest => gepWalk elem rest
  pure { parent := none, name := "", typ := .pointer e,
         elem := elem, src := src, indices := indices }

/-- `InstGetElementPtr.Type()`. -/
def InstGetElementPtr.instType (inst : InstGetElementPtr) : LType :=
  inst.typ

/-- `InstGetElementPtr.SetSrc`: replaces the source address operand only. -/
def InstGetElementPtr.setSrc (inst : InstGetElementPtr) (src : Value) :
    InstGetElementPtr :=
  { inst with src := src }

/-- `InstGetElementPtr.SetIndices`: replaces the element indices only. -/
def InstGetElementPtr.setIndices (inst : InstGetElementPtr)
    (indices : List Value) : InstGetElementPtr :=
  { inst with indices := indices }

/-- `InstLoad`: parent back-reference (modelled by name), result name,
instruction type, and source address. -/
structure InstLoad where
  parent : Option String
  name : String
  typ : LType
  src : Value
  deriving Repr

/-- `NewLoad`: requires a pointer-typed source address; the instruction
type is the pointer's element type. -/
def NewLoad (src : Value) : Except ConstrError InstLoad :=
  match src.typ with
  | .pointer elem =>
    pure { parent := none, name := "", typ := elem, src := src }
  | _ => throw .invalidSourceType

/-- `InstLoad.Type()`. -/
def InstLoad.instType (inst : InstLoad) : LType :=
  inst.typ

/-- `InstLoad.SetSrc`: replaces the source address operand only. -/
def InstLoad.setSrc (inst : InstLoad) (src : Value) : InstLoad :=
  { inst with src := src }

/-- The caller pattern `block.AppendInst(ir.NewLoad(src))`, with a block's
instruction list: the construction failure (a Go panic) occurs before the
append, so on failure the list is returned unchanged. -/
def tryAppendNewLoad (insts : List InstLoad) (src : Value) :
    List InstLoad × Option ConstrError :=
  match NewLoad src with
  | .ok inst => (insts ++ [inst], none)
  | .error e => (insts, some e)

end LLIR

namespace Floats

/-- Fuel-bounded base-2 logarithm (the index of the leading set bit); the
fuel 16 covers every 16-bit mantissa.  Structural recursion keeps it
kernel-computable. -/
def log2Aux : Nat → Nat → Nat
  | 0, _ => 0
  | fuel + 1, n => if 2 <= n then log2Aux fuel (n / 2) + 1 else 0

/-- Base-2 logarithm of a 16-bit value (0 on 0). -/
def log2h (n : Nat) : Nat := log2Aux 16 n

/-- Modelled from the spec: the half-precision codec of the
`internal/floats` package is absent from the snapshot (only its tests are
present).  `Float16.Float32` converts a 16-bit IEEE-754 half-precision
pattern to the 32-bit single-precision pattern of the same number: extract
the sign, exponent and mantissa fields, re-bias the exponent (half bias 15,
single bias 127), left-shift the mantissa into the wider mantissa field,
and reassemble; special exponents keep their special meaning (all-one:
infinity and NaN; all-zero with zero mantissa: signed zero; all-zero with
non-zero mantissa: a subnormal, promoted to normal range in the wider
format by normalizing on its leading bit). -/
def float16ToFloat32Bits (x : Nat) : Nat :=
  let s := x / 2 ^ 15 % 2
  let e := x / 2 ^ 10 % 2 ^ 5
  let m := x % 2 ^ 10
  if e = 31 then
    s * 2 ^ 31 + 255 * 2 ^ 23 + m * 2 ^ 13
  else if e = 0 then
    if m = 0 then
      s * 2 ^ 31
    else
      let k := log2h m
      s * 2 ^ 31 + (k + 103) * 2 ^ 23 + m * 2 ^ (23 - k) % 2 ^ 23
  else
    s * 2 ^ 31 + (e + 112) * 2 ^ 23 + m * 2 ^ 13

/-- Modelled from the spec: `Float16.Float64`, the same conversion into the
64-bit double-precision layout (bias 1023, 52-bit mantissa field). -/
def float16ToFloat64Bits (x : Nat) : Nat :=
  let s := x / 2 ^ 15 % 2
  let e := x / 2 ^ 10 % 2 ^ 5
  let m := x % 2 ^ 10
  if e = 31 then
    s * 2 ^ 63 + 2047 * 2 ^ 52 + m * 2 ^ 42
  else if e = 0 then
    if m = 0 then
      s * 2 ^ 63
    else
      let k := log2h m
      s * 2 ^ 63 + (k + 999) * 2 ^ 52 + m * 2 ^ (52 - k) % 2 ^ 52
  else
    s * 2 ^ 63 + (e + 1008) * 2 ^ 52 + m * 2 ^ 42

/-- The sign bit of a single-precision pattern. -/
def sign32 (b : Nat) : Nat := b / 2 ^ 31 % 2

/-- The magnitude of a finite single-precision pattern, scaled by `2 ^ 149`
(the reciprocal of the smallest positive single-precision subnormal), so
that it is a natural number. -/
def mag32 (b : Nat) : Nat :=
  let e := b / 2 ^ 23 % 2 ^ 8
  let m := b % 2 ^ 23
  if e = 0 then m else (2 ^ 23 + m) * 2 ^ (e - 1)

/-- The sign bit of a double-precision pattern. -/
def sign64 (b : Nat) : Nat := b / 2 ^ 63 % 2

/-- The magnitude of a finite double-precision pattern, scaled by
`2 ^ 1074`. -/
def mag64 (b : Nat) : Nat :=
  let e := b / 2 ^ 52 % 2 ^ 11
  let m := b % 2 ^ 52
  if e = 0 then m else (2 ^ 52 + m) * 2 ^ (e - 1)

/-- The numeric value of a finite single-precision bit pattern, as a
rational number. -/
def val32 (b : Nat) : ℚ :=
  (if sign32 b = 1 then -1 else 1) * (mag32 b : ℚ) / 2 ^ 149

/-- The numeric value of a finite double-precision bit pattern, as a
rational number. -/
def val64 (b : Nat) : ℚ :=
  (if sign64 b = 1 then -1 else 1) * (mag64 b : ℚ) / 2 ^ 1074

/-- The exponent field of a 16-bit half-precision pattern; the pattern is
finite exactly when this is not the all-one value 31. -/
def exp16 (x : Nat) : Nat :=
  x / 2 ^ 10 % 2 ^ 5

end Floats

namespace IRFunc

/-- Fuel-bounded little-endian decimal digits (structural recursion so the
kernel can evaluate it); `decDigits` instantiates the fuel with the number
itself, which suffices since the argument shrinks by a factor 10. -/
def digitsAux10 : Nat → Nat → List Nat
  | _, 0 => []
  | 0, _ => []
  | fuel + 1, n => n % 10 :: digitsAux10 fuel (n / 10)

/-- Little-endian decimal digits of a natural number (empty on 0). -/
def decDigits (n : Nat) : List Nat := digitsAux10 n n

/-- The decimal digit character for a digit value below 10. -/
def digitChar (d : Nat) : Char := Char.ofNat (48 + d)

/-- `strconv.Itoa` on a natural number: its decimal notation. -/
def itoa (n : Nat) : String :=
  if n = 0 then "0" else String.mk ((decDigits n).reverse.map digitChar)

/-- An instruction, as identifier assignment and the `Function` printer see
it: its result name (empty means unnamed) and whether it produces a result
(a `store` does not).  The per-opcode payload is irrelevant here. -/
structure Inst where
  name : String
  producesResult : Bool
  deriving Repr

/-- A basic block: its label name (empty means unnamed), its parent
function (back-reference modelled by the function's name, which is unique
within a module), and its instructions. -/
structure BasicBlock where
  name : String
  parent : Option String
  insts : List Inst
  deriving Repr

/-- A function signature (`types.Func`): parameter types, result type and
the variadic flag. -/
structure FuncSig where
  params : List LLIR.LType
  result : LLIR.LType
  variadic : Bool

/-- `ir.Function`: name, signature, basic blocks (`none` mirrors Go's nil
slice, meaning a declaration), and the private `localID` counter used to
mint identifiers for unnamed entities. -/
structure Function where
  name : String
  sig : FuncSig
  blocks : Option (List BasicBlock)
  localID : Nat

/-- `NewFunction`: blocks absent, counter at zero. -/
def NewFunction (name : String) (sig : FuncSig) : Function :=
  { name := name, sig := sig, blocks := none, localID := 0 }

/-- `Function.nextID`: returns the decimal string of `localID` and
increments the counter. -/
def Function.nextID (f : Function) : String × Function :=
  (itoa f.localID, { f with localID := f.localID + 1 })

/-- Modelled from the spec: one instruction's share of `assignIDs` (the
`BasicBlock` methods are absent from the snapshot): an unnamed
result-producing instruction receives the next identifier; everything else
is left untouched. -/
def assignInst (f : Function) (i : Inst) : Function × Inst :=
  if i.producesResult && i.name == "" then
    let p := f.nextID
    (p.2, { i with name := p.1 })
  else
    (f, i)

/-- Modelled from the spec: `assignInst` over an instruction list, left to
right, threading the counter. -/
def assignInsts : Function → List Inst → Function × List Inst
  | f, [] => (f, [])
  | f, i :: rest =>
    let p := assignInst f i
    let q := assignInsts p.1 rest
    (q.1, p.2 :: q.2)

/-- Modelled from the spec: `BasicBlock.assignIDs` — the block label first
(an unnamed block participates in the same numbering sequence), then its
instructions.  The spec reserves an error path for identifier assignment
but the snapshot does not show a failing condition, so this modelled
version always succeeds. -/
def blockAssignIDs (f : Function) (b : BasicBlock) :
    Except String (Function × BasicBlock) :=
  let p := if b.name == "" then
      let q := f.nextID
      (q.2, q.1)
    else
      (f, b.name)
  let r := assignInsts p.1 b.insts
  .ok (r.1, { b with name := p.2, insts := r.2 })

/-- The loop of `Function.AssignIDs`, generic in the per-block assignment
(the `BasicBlock` method is absent from the snapshot): each block in order;
the first error stops the loop and is returned, with the already-processed
prefix kept (Go mutates in place). -/
def assignLoop (assign : Function → BasicBlock → Except String (Function × BasicBlock)) :
    Function → List BasicBlock → Function × List BasicBlock × Option String
  | f, [] => (f, [], none)
  | f, b :: rest =>
    match assign f b with
    | .error e => (f, b :: rest, some e)
    | .ok (f', b') =>
      let r := assignLoop assign f' rest
      (r.1, b' :: r.2.1, r.2.2)

/-- `Function.AssignIDs`, generic in the per-block assignment: ranges over
the blocks (no iterations on a nil list) and propagates the first error
unchanged (`errutil.Err` only annotates the error with caller position, so
it is modelled as the identity). -/
def Function.AssignIDsWith
    (assign : Function → BasicBlock → Except String (Function × BasicBlock))
    (f : Function) : Function × Option String :=
  match f.blocks with
  | none => (f, none)
  | some bs =>
    let r := assignLoop assign f bs
    ({ r.1 with blocks := some r.2.1 }, r.2.2)

/-- `Function.AssignIDs` with the spec-modelled per-block assignment. -/
def Function.AssignIDs (f : Function) : Function × Option String :=
  f.AssignIDsWith blockAssignIDs

/-- `Function.SetBlocks`, generic in the per-block assignment: set each
block's parent to the function, install the block list, then assign
identifiers; an assignment error is returned unchanged and the block list
stays installed. -/
def Function.SetBlocksWith
    (assign : Function → BasicBlock → Except String (Function × BasicBlock))
    (f : Function) (blocks : List BasicBlock) : Function × Option String :=
  let bs := blocks.map fun b => { b with parent := some f.name }
  Function.AssignIDsWith assign { f with blocks := some bs }

/-- `Function.SetBlocks` with the spec-modelled per-block assignment. -/
def Function.SetBlocks (f : Function) (blocks : List BasicBlock) :
    Function × Option String :=
  f.SetBlocksWith blockAssignIDs blocks

/-- `Function.AppendBlock`: set the block's parent and append it;
identifier assignment is deferred to an explicit `AssignIDs` call. -/
def Function.AppendBlock (f : Function) (b : BasicBlock) : Function :=
  { f with blocks := some ((f.blocks.getD []) ++ [{ b with parent := some f.name }]) }

/-- The flattened entity sequence of a block list, block-major and
instruction-minor, as (produces-a-result, name) pairs; a block label always
participates in numbering. -/
def entities (bs : List BasicBlock) : List (Bool × String) :=
  bs.flatMap fun b => (true, b.name) :: b.insts.map fun i => (i.producesResult, i.name)

/-- The spec's description of identifier assignment, stated over the
flattened entity sequence: a single pass that gives every unnamed
result-producing entity the next integer from the counter and leaves
everything else untouched.  Used as the specification side of the
refinement proof for the implementation's per-block pass. -/
def specAssign (c : Nat) : List (Bool × String) → List (Bool × String)
  | [] => []
  | (res, nm) :: rest =>
    if res && nm == "" then
      (res, itoa c) :: specAssign (c + 1) rest
    else
      (res, nm) :: specAssign c rest

/-- The new names that a pass hands to the previously unnamed
result-producing entities, in order: pair the old and new entity sequences
and keep the new name wherever the old entity was unnamed. -/
def mintedNames (old new : List (Bool × String)) : List String :=
  (old.zip new).filterMap fun p =>
    if p.1.1 && p.1.2 == "" then some p.2.2 else none

/-- The operations on a `Function` that touch its block list or counter. -/
inductive FnOp where
  | setBlocks (blocks : List BasicBlock)
  | appendBlock (b : BasicBlock)
  | assignIDs

/-- Apply one operation to the function state (discarding any error). -/
def applyOp (f : Function) : FnOp → Function
  | .setBlocks bs => (f.SetBlocks bs).1
  | .appendBlock b => f.AppendBlock b
  | .assignIDs => f.AssignIDs.1

mutual

/-- Modelled from the spec: the `types` package printer (`Type.String`) is
absent from the snapshot; LLVM assembly syntax for the modelled type
variants. -/
def typeString : LLIR.LType → String
  | .int bits => "i" ++ itoa bits
  | .void => "void"
  | .pointer elem => typeString elem ++ "*"
  | .array len elem => "[" ++ itoa len ++ " x " ++ typeString elem ++ "]"
  | .struct fields => "\x7b" ++ typeStringFields fields ++ "\x7d"
  | .named n _ => "%" ++ n

/-- Struct field types, comma-joined. -/
def typeStringFields : List LLIR.LType → String
  | [] => ""
  | [t] => typeString t
  | t :: rest => typeString t ++ ", " ++ typeStringFields rest

end

/-- Modelled from the spec: `enc.Global` (absent from the snapshot) prints
a global identifier with the `@` sigil; quoting of names with characters
outside the safe set is not modelled (no claim depends on it). -/
def Global (name : String) : String := "@" ++ name

/-- `Function.ValueString`: the function's global identifier. -/
def Function.ValueString (f : Function) : String := Global f.name

/-- The parameter-list loop of `Function.String`: writes each parameter,
preceded by a comma separator exactly when it is not the first (index
`i > 0`). -/
def paramsLoop : Nat → List String → String
  | _, [] => ""
  | i, p :: rest => (if i > 0 then ", " else "") ++ p ++ paramsLoop (i + 1) rest

/-- `Function.String`, generic in the basic-block printer (the `BasicBlock`
method is absent from the snapshot): the signature is
`<result> <identifier>(<params>)` where the parameter list carries a
trailing `...` when the signature is variadic, preceded by `, ` when at
least one fixed parameter exists; no blocks (nil) prints as
`declare <sig>`; otherwise `define <sig> {`, each block's text on its own
line, and `}`. -/
def Function.StringWith (render : BasicBlock → String) (f : Function) : String :=
  let paramsBuf := paramsLoop 0 (f.sig.params.map typeString) ++
    (if f.sig.variadic then
      (if f.sig.params.length > 0 then ", " else "") ++ "..."
    else "")
  let sig := typeString f.sig.result ++ " " ++ f.ValueString ++ "(" ++ paramsBuf ++ ")"
  match f.blocks with
  | none => "declare " ++ sig
  | some bs =>
    "define " ++ sig ++ " \x7b\n" ++
      String.join (bs.map fun b => render b ++ "\n") ++ "\x7d"

/-- Modelled from the spec: a basic block's text — the label line followed
by its instruction lines (the real printer is absent from the snapshot; no
claim depends on its exact shape). -/
def BasicBlock.render (b : BasicBlock) : String :=
  b.name ++ ":" ++ String.join (b.insts.map fun i => "\n\t" ++ i.name)

/-- `Function.String` with the modelled block printer. -/
def Function.render (f : Function) : String :=
  f.StringWith BasicBlock.render

/-- Little-endian decimal recomposition, the inverse of `decDigits`. -/
def fromDigits : List Nat → Nat
  | [] => 0
  | d :: rest => d + 10 * fromDigits rest

/-- The number of unnamed result-producing entries in an entity
sequence. -/
def countUnnamed (l : List (Bool × String)) : Nat :=
  (l.filter fun p => p.1 && p.2 == "").length

/-- The spec's comma-joined parameter list: the first parameter plain, each
later one preceded by `, `. -/
def commaJoin : List String → String
  | [] => ""
  | p :: rest => p ++ String.join (rest.map fun q => ", " ++ q)

/-- A per-block assignment that always fails; exercises the error path of
`SetBlocksWith`. -/
def alwaysFailAssign : Function → BasicBlock → Except String (Function × BasicBlock) :=
  fun _ _ => .error ("boom")

end IRFunc

/-! ### Theorems -/

namespace LLIR

/-- C8: an instruction's declared result type never changes after
construction: `SetSrc` on a load, and `SetSrc`/`SetIndices` on a
getelementptr, leave `Type()` and every field other than the mutated
operand untouched. -/
theorem spec_C8 : ∀ (ld : InstLoad) (gep : InstGetElementPtr) (v : Value)
    (idxs : List Value),
    ((ld.setSrc v).instType = ld.instType ∧ (ld.setSrc v).name = ld.name ∧
      (ld.setSrc v).parent = ld.parent ∧ (ld.setSrc v).src = v) ∧
    ((gep.setSrc v).instType = gep.instType ∧ (gep.setSrc v).name = gep.name ∧
      (gep.setSrc v).parent = gep.parent ∧ (gep.setSrc v).elem = gep.elem ∧
      (gep.setSrc v).indices = gep.indices ∧ (gep.setSrc v).src = v) ∧
    ((gep.setIndices idxs).instType = gep.instType ∧
      (gep.setIndices idxs).name = gep.name ∧
      (gep.setIndices idxs).parent = gep.parent ∧
      (gep.setIndices idxs).elem = gep.elem ∧
      (gep.setIndices idxs).src = gep.src ∧
      (gep.setIndices idxs).indices = idxs) := by
  intro ld gep v idxs
  exact ⟨⟨rfl, rfl, rfl, rfl⟩, ⟨rfl, rfl, rfl, rfl, rfl, rfl⟩,
    ⟨rfl, rfl, rfl, rfl, rfl, rfl⟩⟩

/-- C3: constructing a load from a non-pointer-typed operand fails before
any mutation (the caller's instruction list is unchanged); from a
pointer-typed operand it succeeds and the instruction's type is the
pointer's element type. -/
theorem spec_C3 : ∀ v : Value,
    ((∀ e, v.typ ≠ .pointer e) →
      NewLoad v = .error .invalidSourceType ∧
      ∀ insts, tryAppendNewLoad insts v = (insts, some .invalidSourceType)) ∧
    (∀ e, v.typ = .pointer e →
      NewLoad v = .ok { parent := none, name := "", typ := e, src := v }) := by
  intro v
  constructor
  · intro hnp
    have hload : NewLoad v = .error .invalidSourceType := by
      unfold NewLoad
      cases hv : v.typ with
      | pointer e => exact absurd hv (hnp e)
      | _ => rfl
    exact ⟨hload, fun insts => by unfold tryAppendNewLoad; rw [hload]⟩
  · intro e he
    unfold NewLoad
    rw [he]
    rfl

/-- Witness for C3: a load from an `i32`-typed operand fails and leaves the
list unchanged; a load from an `i32*`-typed operand succeeds with type
`i32`. -/
theorem spec_C3_witness :
    (NewLoad (.var ("x") (.int 32)) = .error .invalidSourceType ∧
      tryAppendNewLoad [] (.var ("x") (.int 32)) = ([], some .invalidSourceType)) ∧
    NewLoad (.var ("p") (.pointer (.int 32))) =
      .ok { parent := none, name := "", typ := .int 32,
            src := .var ("p") (.pointer (.int 32)) } := by
  constructor
  · have h := (spec_C3 (.var ("x") (.int 32))).1
      (by intro e he; simp [Value.typ] at he)
    exact ⟨h.1, h.2 []⟩
  · exact (spec_C3 (.var ("p") (.pointer (.int 32)))).2 (.int 32) rfl

/-- C2: getelementptr construction fails when the source operand is not
pointer-typed; and the walk for an index beyond the first fails on a
pointer type, on a struct type with a non-constant index, on an unresolved
named type, and on any non-aggregate kind — each failure propagating so the
instruction is never built. -/
theorem spec_C2 :
    (∀ v idxs, (∀ t, v.typ ≠ .pointer t) →
      NewGetElementPtr v idxs = .error .invalidSourceType) ∧
    (∀ t idx, gepStep (.pointer t) idx = .error .cannotIndexPointer) ∧
    (∀ fields idx, (∀ bits n, idx ≠ .constInt bits n) →
      gepStep (.struct fields) idx = .error .structIndexMustBeConstant) ∧
    (∀ nm idx, gepStep (.named nm none) idx = .error .unresolvedNamedType) ∧
    (∀ bits idx, gepStep (.int bits) idx = .error .unsupportedIndexTarget) ∧
    (∀ idx, gepStep .void idx = .error .unsupportedIndexTarget) ∧
    (∀ e idx rest err, gepStep e idx = .error err →
      gepWalk e (idx :: rest) = .error err) ∧
    (∀ v t i rest err, v.typ = .pointer t → gepWalk t rest = .error err →
      NewGetElementPtr v (i :: rest) = .error err) := by
  refine ⟨?_, fun t idx => rfl, ?_, fun nm idx => rfl, fun bits idx => rfl,
    fun idx => rfl, ?_, ?_⟩
  · intro v idxs hnp
    unfold NewGetElementPtr
    cases hv : v.typ with
    | pointer t => exact absurd hv (hnp t)
    | _ => rfl
  · intro fields idx hni
    cases idx with
    | constInt bits n => exact absurd rfl (hni bits n)
    | var nm t => rfl
  · intro e idx rest err hstep
    unfold gepWalk
    rw [hstep]
    rfl
  · intro v t i rest err hv hw
    unfold NewGetElementPtr
    rw [hv]
    show (gepWalk t rest).bind _ = _
    rw [hw]
    rfl

/-- Witness for C2: each failure case at a concrete input — an `i1`-typed
source, a struct walked with a variable index, a void type as walk target,
and a getelementptr on `void*` whose second index hits the void target. -/
theorem spec_C2_witness :
    NewGetElementPtr (.var ("x") (.int 1)) [] = .error .invalidSourceType ∧
    gepStep (.struct []) (.var ("y") .void) = .error .structIndexMustBeConstant ∧
    gepWalk .void [.constInt 32 0] = .error .unsupportedIndexTarget ∧
    NewGetElementPtr (.var ("p") (.pointer .void)) [.constInt 32 0, .constInt 32 1]
      = .error .unsupportedIndexTarget := by
  refine ⟨?_, ?_, ?_, ?_⟩
  · exact spec_C2.1 (.var ("x") (.int 1)) [] (by intro t ht; simp [Value.typ] at ht)
  · exact spec_C2.2.2.1 [] (.var ("y") .void) (by intro bits n h; simp at h)
  · exact spec_C2.2.2.2.2.2.2.1 .void (.constInt 32 0) [] .unsupportedIndexTarget rfl
  · exact spec_C2.2.2.2.2.2.2.2 (.var ("p") (.pointer .void)) .void (.constInt 32 0)
      [.constInt 32 1] .unsupportedIndexTarget rfl rfl

/-- C9: a struct walked with a constant index that is negative or at least
the field count fails with the index-out-of-range condition (also at the
`NewGetElementPtr` level); a constant index within range never takes that
error branch and selects exactly the indexed field type. -/
theorem spec_C9 :
    (∀ (fields : List LType) (bits : Nat) (n : Int),
      (n < 0 ∨ (fields.length : Int) ≤ n) →
      gepStep (.struct fields) (.constInt bits n) = .error .indexOutOfRange) ∧
    (∀ (fields : List LType) (bits : Nat) (n : Int) (h0 : 0 ≤ n)
      (hlt : n.toNat < fields.length),
      gepStep (.struct fields) (.constInt bits n) = .ok (fields.get ⟨n.toNat, hlt⟩)) ∧
    (∀ (v : Value) (fields : List LType) (i : Value) (bits : Nat) (n : Int),
      v.typ = .pointer (.struct fields) → (n < 0 ∨ (fields.length : Int) ≤ n) →
      NewGetElementPtr v [i, .constInt bits n] = .error .indexOutOfRange) := by
  have hred : ∀ (fields : List LType) (bits : Nat) (n : Int),
      gepStep (.struct fields) (.constInt bits n)
        = if h : 0 ≤ n ∧ n.toNat < fields.length
            then .ok (fields.get ⟨n.toNat, h.2⟩)
            else .error .indexOutOfRange := fun _ _ _ => rfl
  have hstep : ∀ (fields : List LType) (bits : Nat) (n : Int),
      (n < 0 ∨ (fields.length : Int) ≤ n) →
      gepStep (.struct fields) (.constInt bits n) = .error .indexOutOfRange := by
    intro fields bits n hrange
    rw [hred, dif_neg]
    rintro ⟨h0, hlt⟩
    omega
  refine ⟨hstep, ?_, ?_⟩
  · intro fields bits n h0 hlt
    rw [hred, dif_pos ⟨h0, hlt⟩]
  · intro v fields i bits n hv hrange
    unfold NewGetElementPtr
    rw [hv]
    show (gepWalk (.struct fields) [.constInt bits n]).bind _ = _
    unfold gepWalk
    rw [show (gepStep (.struct fields) (.constInt bits n) >>= fun e => gepWalk e [])
      = (gepStep (.struct fields) (.constInt bits n)).bind fun e => gepWalk e [] from rfl]
    rw [hstep fields bits n hrange]
    rfl

/-- Witness for C9: on a pointer to the struct `{i32}`, index 5 is out of
range and index 0 selects `i32`. -/
theorem spec_C9_witness :
    gepStep (.struct [.int 32]) (.constInt 32 5) = .error .indexOutOfRange ∧
    gepStep (.struct [.int 32]) (.constInt 32 0) = .ok (.int 32) ∧
    NewGetElementPtr (.var ("p") (.pointer (.struct [.int 32])))
      [.constInt 32 0, .constInt 32 5] = .error .indexOutOfRange := by
  refine ⟨?_, ?_, ?_⟩
  · exact spec_C9.1 [.int 32] 32 5 (by decide)
  · exact spec_C9.2.1 [.int 32] 32 0 (by decide) (by decide)
  · exact spec_C9.2.2 (.var ("p") (.pointer (.struct [.int 32]))) [.int 32]
      (.constInt 32 0) 32 5 rfl (by decide)

/-- C1: for a pointer-typed source, the getelementptr walk skips the first
index (the result type does not depend on it); a successful construction
has type pointer-to the type reached by walking the remaining indices; on a
pointer to `{i32, [4 x i8]}` the indices `[0, 1, 2]` give `i8*`, and on a
pointer to `[10 x i32]` the indices `[0, 3]` give `i32*`. -/
theorem spec_C1 :
    (∀ (v : Value) (t : LType) (i i' : Value) (rest : List Value),
      v.typ = .pointer t →
      (NewGetElementPtr v (i :: rest)).map InstGetElementPtr.instType
        = (NewGetElementPtr v (i' :: rest)).map InstGetElementPtr.instType) ∧
    (∀ (v : Value) (t : LType) (i : Value) (rest : List Value)
      (inst : InstGetElementPtr),
      v.typ = .pointer t → NewGetElementPtr v (i :: rest) = .ok inst →
      ∃ e, gepWalk t rest = .ok e ∧ inst.instType = .pointer e) ∧
    ((NewGetElementPtr (.var ("p") (.pointer (.struct [.int 32, .array 4 (.int 8)])))
        [.constInt 32 0, .constInt 32 1, .constInt 32 2]).map
        InstGetElementPtr.instType = .ok (.pointer (.int 8))) ∧
    ((NewGetElementPtr (.var ("p") (.pointer (.array 10 (.int 32))))
        [.constInt 32 0, .constInt 32 3]).map
        InstGetElementPtr.instType = .ok (.pointer (.int 32))) := by
  have hred : ∀ (v : Value) (t : LType) (i : Value) (rest : List Value),
      v.typ = .pointer t →
      NewGetElementPtr v (i :: rest)
        = (gepWalk t rest).bind fun e =>
            .ok { parent := none, name := "", typ := .pointer e, elem := t,
                  src := v, indices := i :: rest } := by
    intro v t i rest hv
    unfold NewGetElementPtr
    rw [hv]
    rfl
  refine ⟨?_, ?_, rfl, rfl⟩
  · intro v t i i' rest hv
    rw [hred v t i rest hv, hred v t i' rest hv]
    cases gepWalk t rest with
    | ok e => rfl
    | error err => rfl
  · intro v t i rest inst hv hok
    rw [hred v t i rest hv] at hok
    cases hw : gepWalk t rest with
    | ok e =>
      rw [hw] at hok
      simp only [Except.bind] at hok
      cases hok
      exact ⟨e, rfl, rfl⟩
    | error err =>
      rw [hw] at hok
      exact Except.noConfusion hok

/-- Witness for C1: the two concrete type computations of the claim,
obtained from the general parts at the concrete inputs, plus the
first-index irrelevance at index values 0 and 7. -/
theorem spec_C1_witness :
    ((NewGetElementPtr (.var ("p") (.pointer (.array 10 (.int 32))))
        [.constInt 32 0, .constInt 32 3]).map InstGetElementPtr.instType
      = (NewGetElementPtr (.var ("p") (.pointer (.array 10 (.int 32))))
        [.constInt 32 7, .constInt 32 3]).map InstGetElementPtr.instType) ∧
    (∃ e, gepWalk (.struct [.int 32, .array 4 (.int 8)])
        [.constInt 32 1, .constInt 32 2] = .ok e ∧
      (InstGetElementPtr.instType
        { parent := none, name := "", typ := .pointer (.int 8),
          elem := .struct [.int 32, .array 4 (.int 8)],
          src := .var ("p") (.pointer (.struct [.int 32, .array 4 (.int 8)])),
          indices := [.constInt 32 0, .constInt 32 1, .constInt 32 2] })
        = .pointer e) := by
  constructor
  · exact spec_C1.1 (.var ("p") (.pointer (.array 10 (.int 32)))) (.array 10 (.int 32))
      (.constInt 32 0) (.constInt 32 7) [.constInt 32 3] rfl
  · exact spec_C1.2.1 (.var ("p") (.pointer (.struct [.int 32, .array 4 (.int 8)])))
      (.struct [.int 32, .array 4 (.int 8)]) (.constInt 32 0)
      [.constInt 32 1, .constInt 32 2] _ rfl rfl

end LLIR

namespace Floats

/-- `log2Aux` brackets its argument between consecutive powers of two when
the fuel covers it. -/
theorem log2Aux_bounds : ∀ fuel n : Nat, 1 ≤ n → n < 2 ^ fuel →
    2 ^ log2Aux fuel n ≤ n ∧ n < 2 ^ (log2Aux fuel n + 1) := by
  intro fuel
  induction fuel with
  | zero => intro n h1 h2; omega
  | succ f ih =>
    intro n h1 h2
    by_cases h : 2 ≤ n
    · have ih2 := ih (n / 2) (by omega) (by
        have : 2 ^ (f + 1) = 2 ^ f * 2 := by ring
        omega)
      simp only [log2Aux, if_pos h]
      constructor
      · have := ih2.1
        calc 2 ^ (log2Aux f (n / 2) + 1) = 2 ^ log2Aux f (n / 2) * 2 := by ring
        _ ≤ (n / 2) * 2 := by omega
        _ ≤ n := by omega
      · have := ih2.2
        calc n ≤ n / 2 * 2 + 1 := by omega
        _ < 2 ^ (log2Aux f (n / 2) + 1) * 2 := by omega
        _ = 2 ^ (log2Aux f (n / 2) + 1 + 1) := by ring
    · simp only [log2Aux, if_neg h]
      omega

/-- `log2h` brackets a 16-bit mantissa between consecutive powers of 2. -/
theorem log2h_bounds (n : Nat) (h1 : 1 ≤ n) (h2 : n < 1024) :
    2 ^ log2h n ≤ n ∧ n < 2 ^ (log2h n + 1) :=
  log2Aux_bounds 16 n h1 (by omega)

/-- A mantissa below `2 ^ 10` has its leading bit at position at most 9. -/
theorem log2h_le_9 (m : Nat) (hm1 : 1 ≤ m) (hm : m < 1024) : log2h m ≤ 9 := by
  have hb := (log2h_bounds m hm1 hm).1
  by_contra h
  have : 2 ^ 10 ≤ 2 ^ log2h m := Nat.pow_le_pow_right (by norm_num) (by omega)
  omega

/-- Evaluation of the 32-bit conversion on a decomposed normal pattern. -/
theorem toF32_normal (s e m : Nat) (hs : s < 2) (he1 : 1 ≤ e) (he2 : e ≤ 30)
    (hm : m < 1024) :
    float16ToFloat32Bits (s * 2 ^ 15 + e * 2 ^ 10 + m)
      = s * 2 ^ 31 + (e + 112) * 2 ^ 23 + m * 2 ^ 13 := by
  have h1 : (s * 2 ^ 15 + e * 2 ^ 10 + m) / 2 ^ 15 % 2 = s := by omega
  have h2 : (s * 2 ^ 15 + e * 2 ^ 10 + m) / 2 ^ 10 % 2 ^ 5 = e := by omega
  have h3 : (s * 2 ^ 15 + e * 2 ^ 10 + m) % 2 ^ 10 = m := by omega
  simp only [float16ToFloat32Bits, h1, h2, h3]
  rw [if_neg (by omega), if_neg (by omega)]

/-- Evaluation of the 64-bit conversion on a decomposed normal pattern. -/
theorem toF64_normal (s e m : Nat) (hs : s < 2) (he1 : 1 ≤ e) (he2 : e ≤ 30)
    (hm : m < 1024) :
    float16ToFloat64Bits (s * 2 ^ 15 + e * 2 ^ 10 + m)
      = s * 2 ^ 63 + (e + 1008) * 2 ^ 52 + m * 2 ^ 42 := by
  have h1 : (s * 2 ^ 15 + e * 2 ^ 10 + m) / 2 ^ 15 % 2 = s := by omega
  have h2 : (s * 2 ^ 15 + e * 2 ^ 10 + m) / 2 ^ 10 % 2 ^ 5 = e := by omega
  have h3 : (s * 2 ^ 15 + e * 2 ^ 10 + m) % 2 ^ 10 = m := by omega
  simp only [float16ToFloat64Bits, h1, h2, h3]
  rw [if_neg (by omega), if_neg (by omega)]

/-- Evaluation of the 32-bit conversion on a decomposed subnormal
pattern. -/
theorem toF32_subnormal (s m : Nat) (hs : s < 2) (hm1 : 1 ≤ m) (hm : m < 1024) :
    float16ToFloat32Bits (s * 2 ^ 15 + m)
      = s * 2 ^ 31 + (log2h m + 103) * 2 ^ 23 + m * 2 ^ (23 - log2h m) % 2 ^ 23 := by
  have h1 : (s * 2 ^ 15 + m) / 2 ^ 15 % 2 = s := by omega
  have h2 : (s * 2 ^ 15 + m) / 2 ^ 10 % 2 ^ 5 = 0 := by omega
  have h3 : (s * 2 ^ 15 + m) % 2 ^ 10 = m := by omega
  simp only [float16ToFloat32Bits, h1, h2, h3]
  rw [if_neg (by omega), if_pos trivial, if_neg (by omega)]

/-- Evaluation of the 64-bit conversion on a decomposed subnormal
pattern. -/
theorem toF64_subnormal (s m : Nat) (hs : s < 2) (hm1 : 1 ≤ m) (hm : m < 1024) :
    float16ToFloat64Bits (s * 2 ^ 15 + m)
      = s * 2 ^ 63 + (log2h m + 999) * 2 ^ 52 + m * 2 ^ (52 - log2h m) % 2 ^ 52 := by
  have h1 : (s * 2 ^ 15 + m) / 2 ^ 15 % 2 = s := by omega
  have h2 : (s * 2 ^ 15 + m) / 2 ^ 10 % 2 ^ 5 = 0 := by omega
  have h3 : (s * 2 ^ 15 + m) % 2 ^ 10 = m := by omega
  simp only [float16ToFloat64Bits, h1, h2, h3]
  rw [if_neg (by omega), if_pos trivial, if_neg (by omega)]

/-- Evaluation of the 32-bit conversion on a zero pattern. -/
theorem toF32_zero (s : Nat) (hs : s < 2) :
    float16ToFloat32Bits (s * 2 ^ 15) = s * 2 ^ 31 := by
  have h1 : s * 2 ^ 15 / 2 ^ 15 % 2 = s := by omega
  have h2 : s * 2 ^ 15 / 2 ^ 10 % 2 ^ 5 = 0 := by omega
  have h3 : s * 2 ^ 15 % 2 ^ 10 = 0 := by omega
  simp only [float16ToFloat32Bits, h1, h2, h3]
  rw [if_neg (by omega), if_pos trivial, if_pos trivial]

/-- Evaluation of the 64-bit conversion on a zero pattern. -/
theorem toF64_zero (s : Nat) (hs : s < 2) :
    float16ToFloat64Bits (s * 2 ^ 15) = s * 2 ^ 63 := by
  have h1 : s * 2 ^ 15 / 2 ^ 15 % 2 = s := by omega
  have h2 : s * 2 ^ 15 / 2 ^ 10 % 2 ^ 5 = 0 := by omega
  have h3 : s * 2 ^ 15 % 2 ^ 10 = 0 := by omega
  simp only [float16ToFloat64Bits, h1, h2, h3]
  rw [if_neg (by omega), if_pos trivial, if_pos trivial]

/-- Evaluation of the 32-bit conversion on an all-one-exponent pattern. -/
theorem toF32_inf (s m : Nat) (hs : s < 2) (hm : m < 1024) :
    float16ToFloat32Bits (s * 2 ^ 15 + 31 * 2 ^ 10 + m)
      = s * 2 ^ 31 + 255 * 2 ^ 23 + m * 2 ^ 13 := by
  have h1 : (s * 2 ^ 15 + 31 * 2 ^ 10 + m) / 2 ^ 15 % 2 = s := by omega
  have h2 : (s * 2 ^ 15 + 31 * 2 ^ 10 + m) / 2 ^ 10 % 2 ^ 5 = 31 := by omega
  have h3 : (s * 2 ^ 15 + 31 * 2 ^ 10 + m) % 2 ^ 10 = m := by omega
  simp only [float16ToFloat32Bits, h1, h2, h3]
  rw [if_pos trivial]

/-- Evaluation of the 64-bit conversion on an all-one-exponent pattern. -/
theorem toF64_inf (s m : Nat) (hs : s < 2) (hm : m < 1024) :
    float16ToFloat64Bits (s * 2 ^ 15 + 31 * 2 ^ 10 + m)
      = s * 2 ^ 63 + 2047 * 2 ^ 52 + m * 2 ^ 42 := by
  have h1 : (s * 2 ^ 15 + 31 * 2 ^ 10 + m) / 2 ^ 15 % 2 = s := by omega
  have h2 : (s * 2 ^ 15 + 31 * 2 ^ 10 + m) / 2 ^ 10 % 2 ^ 5 = 31 := by omega
  have h3 : (s * 2 ^ 15 + 31 * 2 ^ 10 + m) % 2 ^ 10 = m := by omega
  simp only [float16ToFloat64Bits, h1, h2, h3]
  rw [if_pos trivial]

/-- Sign and scaled magnitude of a composed normal single-precision
pattern. -/
theorem sign32_mag32_of (b s E M : Nat) (hb : b = s * 2 ^ 31 + E * 2 ^ 23 + M)
    (hs : s < 2) (hE1 : 1 ≤ E) (hE : E < 256) (hM : M < 2 ^ 23) :
    sign32 b = s ∧ mag32 b = (2 ^ 23 + M) * 2 ^ (E - 1) := by
  have h1 : b / 2 ^ 31 % 2 = s := by omega
  have h2 : b / 2 ^ 23 % 2 ^ 8 = E := by omega
  have h3 : b % 2 ^ 23 = M := by omega
  exact ⟨h1, by simp only [mag32, h2, h3]; rw [if_neg (by omega)]⟩

/-- Sign and scaled magnitude of a composed normal double-precision
pattern. -/
theorem sign64_mag64_of (b s E M : Nat) (hb : b = s * 2 ^ 63 + E * 2 ^ 52 + M)
    (hs : s < 2) (hE1 : 1 ≤ E) (hE : E < 2048) (hM : M < 2 ^ 52) :
    sign64 b = s ∧ mag64 b = (2 ^ 52 + M) * 2 ^ (E - 1) := by
  have h1 : b / 2 ^ 63 % 2 = s := by omega
  have h2 : b / 2 ^ 52 % 2 ^ 11 = E := by omega
  have h3 : b % 2 ^ 52 = M := by omega
  exact ⟨h1, by simp only [mag64, h2, h3]; rw [if_neg (by omega)]⟩

/-- Sign and scaled magnitude of a sign-only single-precision pattern. -/
theorem sign32_mag32_zero (s : Nat) (hs : s < 2) :
    sign32 (s * 2 ^ 31) = s ∧ mag32 (s * 2 ^ 31) = 0 := by
  have h1 : s * 2 ^ 31 / 2 ^ 31 % 2 = s := by omega
  have h2 : s * 2 ^ 31 / 2 ^ 23 % 2 ^ 8 = 0 := by omega
  have h3 : s * 2 ^ 31 % 2 ^ 23 = 0 := by omega
  exact ⟨h1, by simp only [mag32, h2, h3]; rw [if_pos trivial]⟩

/-- Sign and scaled magnitude of a sign-only double-precision pattern. -/
theorem sign64_mag64_zero (s : Nat) (hs : s < 2) :
    sign64 (s * 2 ^ 63) = s ∧ mag64 (s * 2 ^ 63) = 0 := by
  have h1 : s * 2 ^ 63 / 2 ^ 63 % 2 = s := by omega
  have h2 : s * 2 ^ 63 / 2 ^ 52 % 2 ^ 11 = 0 := by omega
  have h3 : s * 2 ^ 63 % 2 ^ 52 = 0 := by omega
  exact ⟨h1, by simp only [mag64, h2, h3]; rw [if_pos trivial]⟩

/-- The normal-case magnitudes agree after rescaling by `2 ^ 925`. -/
theorem mag_eq_normal (e m : Nat) :
    (2 ^ 23 + m * 2 ^ 13) * 2 ^ (e + 111) * 2 ^ 925
      = (2 ^ 52 + m * 2 ^ 42) * 2 ^ (e + 1007) := by
  rw [pow_add, pow_add]
  ring

/-- The subnormal single-precision magnitude is the mantissa value times
`2 ^ 125`. -/
theorem mag32_sub_eq (k m : Nat) (hk : k ≤ 9) (hm1 : 2 ^ k ≤ m)
    (hm2 : m < 2 ^ (k + 1)) :
    (2 ^ 23 + m * 2 ^ (23 - k) % 2 ^ 23) * 2 ^ (k + 103 - 1) = m * 2 ^ 125 := by
  interval_cases k <;> omega

/-- The subnormal double-precision magnitude is the mantissa value times
`2 ^ 1050`. -/
theorem mag64_sub_eq (k m : Nat) (hk : k ≤ 9) (hm1 : 2 ^ k ≤ m)
    (hm2 : m < 2 ^ (k + 1)) :
    (2 ^ 52 + m * 2 ^ (52 - k) % 2 ^ 52) * 2 ^ (k + 999 - 1) = m * 2 ^ 1050 := by
  interval_cases k <;> omega

/-- Equal signs and `2 ^ 925`-rescaled magnitudes give equal rational
values. -/
theorem val_bridge (a b : Nat) (hsgn : sign32 a = sign64 b)
    (hmag : mag32 a * 2 ^ 925 = mag64 b) : val32 a = val64 b := by
  unfold val32 val64
  rw [hsgn, ← hmag]
  push_cast
  rw [div_eq_div_iff (by positivity) (by positivity)]
  ring

/-- The width bounds and the cross-format value agreement, for every 16-bit
pattern. -/
theorem float_main : ∀ x : Nat, x < 2 ^ 16 →
    (float16ToFloat32Bits x < 2 ^ 32 ∧ float16ToFloat64Bits x < 2 ^ 64) ∧
    (exp16 x ≠ 31 →
      val32 (float16ToFloat32Bits x) = val64 (float16ToFloat64Bits x)) := by
  intro x hx
  obtain ⟨s, e, m, hs, he, hm, hxd⟩ :
      ∃ s e m : Nat, s < 2 ∧ e < 32 ∧ m < 1024 ∧ x = s * 2 ^ 15 + e * 2 ^ 10 + m :=
    ⟨x / 2 ^ 15 % 2, x / 2 ^ 10 % 2 ^ 5, x % 2 ^ 10, by omega, by omega, by omega,
      by omega⟩
  have hexp : exp16 x = e := by unfold exp16; omega
  subst hxd
  by_cases h31 : e = 31
  · subst h31
    rw [toF32_inf s m hs hm, toF64_inf s m hs hm]
    exact ⟨⟨by omega, by omega⟩, fun hne => absurd hexp (by omega)⟩
  · by_cases h0 : e = 0
    · subst h0
      by_cases hm0 : m = 0
      · subst hm0
        simp only [Nat.mul_zero, Nat.zero_mul, Nat.add_zero]
        rw [toF32_zero s hs, toF64_zero s hs]
        obtain ⟨hs32, hmag32⟩ := sign32_mag32_zero s hs
        obtain ⟨hs64, hmag64⟩ := sign64_mag64_zero s hs
        exact ⟨⟨by omega, by omega⟩, fun _ => val_bridge _ _ (hs32.trans hs64.symm)
          (by rw [hmag32, hmag64, Nat.zero_mul])⟩
      · have hm1 : 1 ≤ m := by omega
        have hx32 : s * 2 ^ 15 + 0 * 2 ^ 10 + m = s * 2 ^ 15 + m := by ring
        rw [hx32, toF32_subnormal s m hs hm1 hm, toF64_subnormal s m hs hm1 hm]
        set k := log2h m with hk
        have hk9 : k ≤ 9 := log2h_le_9 m hm1 hm
        have hkb := log2h_bounds m hm1 hm
        obtain ⟨hs32, hmag32⟩ := sign32_mag32_of _ s (k + 103)
          (m * 2 ^ (23 - k) % 2 ^ 23) rfl hs (by omega) (by omega)
          (Nat.mod_lt _ (by positivity))
        obtain ⟨hs64, hmag64⟩ := sign64_mag64_of _ s (k + 999)
          (m * 2 ^ (52 - k) % 2 ^ 52) rfl hs (by omega) (by omega)
          (Nat.mod_lt _ (by positivity))
        refine ⟨⟨?_, ?_⟩, fun _ => val_bridge _ _ (hs32.trans hs64.symm) ?_⟩
        · have := Nat.mod_lt (m * 2 ^ (23 - k)) (y := 2 ^ 23) (by positivity)
          omega
        · have := Nat.mod_lt (m * 2 ^ (52 - k)) (y := 2 ^ 52) (by positivity)
          omega
        · rw [hmag32, hmag64, mag32_sub_eq k m hk9 hkb.1 hkb.2,
            mag64_sub_eq k m hk9 hkb.1 hkb.2]
          norm_num
          ring
    · have he1 : 1 ≤ e := by omega
      have he30 : e ≤ 30 := by omega
      rw [toF32_normal s e m hs he1 he30 hm, toF64_normal s e m hs he1 he30 hm]
      obtain ⟨hs32, hmag32⟩ := sign32_mag32_of _ s (e + 112) (m * 2 ^ 13)
        rfl hs (by omega) (by omega) (by omega)
      obtain ⟨hs64, hmag64⟩ := sign64_mag64_of _ s (e + 1008) (m * 2 ^ 42)
        rfl hs (by omega) (by omega) (by omega)
      refine ⟨⟨by omega, by omega⟩, fun _ => val_bridge _ _ (hs32.trans hs64.symm) ?_⟩
      rw [hmag32, hmag64]
      have h32 : e + 112 - 1 = e + 111 := by omega
      have h64 : e + 1008 - 1 = e + 1007 := by omega
      rw [h32, h64]
      exact mag_eq_normal e m

/-- The golden bit patterns of the conversion. -/
theorem golden_bits :
    float16ToFloat32Bits 0x3C00 = 0x3F800000 ∧
    float16ToFloat64Bits 0x3C00 = 0x3FF0000000000000 ∧
    float16ToFloat32Bits 0xC000 = 0xC0000000 ∧
    float16ToFloat64Bits 0xC000 = 0xC000000000000000 ∧
    float16ToFloat32Bits 0x7BFF = 0x477FE000 ∧
    float16ToFloat64Bits 0x7BFF = 0x40EFFC0000000000 ∧
    float16ToFloat32Bits 0x5B8F = 0x4371E000 ∧
    float16ToFloat64Bits 0x5B8F = 0x406E3C0000000000 ∧
    float16ToFloat32Bits 0x48C8 = 0x41190000 ∧
    float16ToFloat64Bits 0x48C8 = 0x4023200000000000 ∧
    float16ToFloat32Bits 0x8000 = 0x80000000 ∧
    float16ToFloat64Bits 0x8000 = 0x8000000000000000 ∧
    float16ToFloat32Bits 0x7C00 = 0x7F800000 ∧
    float16ToFloat64Bits 0x7C00 = 0x7FF0000000000000 ∧
    float16ToFloat32Bits 0xFC00 = 0xFF800000 ∧
    float16ToFloat64Bits 0xFC00 = 0xFFF0000000000000 := by
  decide

/-- The rational values of the golden output patterns. -/
theorem golden_vals :
    val32 0x3F800000 = 1 ∧ val64 0x3FF0000000000000 = 1 ∧
    val32 0xC0000000 = -2 ∧ val64 0xC000000000000000 = -2 ∧
    val32 0x477FE000 = 65504 ∧ val64 0x40EFFC0000000000 = 65504 ∧
    val32 0x4371E000 = 1935 / 8 ∧ val64 0x406E3C0000000000 = 1935 / 8 ∧
    val32 0x41190000 = 153 / 16 ∧ val64 0x4023200000000000 = 153 / 16 := by
  refine ⟨?_, ?_, ?_, ?_, ?_, ?_, ?_, ?_, ?_, ?_⟩ <;>
    norm_num [val32, val64, sign32, mag32, sign64, mag64]


/-- C6: the half-precision codec is total over 16-bit patterns (the outputs
fit the 32- and 64-bit layouts), maps the golden patterns exactly (1.0,
-2.0, 65504.0, 241.875 = 1935/8, 9.5625 = 153/16, negative zero and the two
infinities as bit patterns), and gives numerically equal single- and
double-precision values for every finite 16-bit pattern. -/
theorem spec_C6 :
    (val32 (float16ToFloat32Bits 0x3C00) = 1 ∧
      val64 (float16ToFloat64Bits 0x3C00) = 1) ∧
    (val32 (float16ToFloat32Bits 0xC000) = -2 ∧
      val64 (float16ToFloat64Bits 0xC000) = -2) ∧
    (val32 (float16ToFloat32Bits 0x7BFF) = 65504 ∧
      val64 (float16ToFloat64Bits 0x7BFF) = 65504) ∧
    (val32 (float16ToFloat32Bits 0x5B8F) = 1935 / 8 ∧
      val64 (float16ToFloat64Bits 0x5B8F) = 1935 / 8) ∧
    (val32 (float16ToFloat32Bits 0x48C8) = 153 / 16 ∧
      val64 (float16ToFloat64Bits 0x48C8) = 153 / 16) ∧
    (float16ToFloat32Bits 0x8000 = 0x80000000 ∧
      float16ToFloat64Bits 0x8000 = 0x8000000000000000) ∧
    (float16ToFloat32Bits 0x7C00 = 0x7F800000 ∧
      float16ToFloat64Bits 0x7C00 = 0x7FF0000000000000) ∧
    (float16ToFloat32Bits 0xFC00 = 0xFF800000 ∧
      float16ToFloat64Bits 0xFC00 = 0xFFF0000000000000) ∧
    ∀ x : Nat, x < 2 ^ 16 →
      (float16ToFloat32Bits x < 2 ^ 32 ∧ float16ToFloat64Bits x < 2 ^ 64) ∧
      (exp16 x ≠ 31 →
        val32 (float16ToFloat32Bits x) = val64 (float16ToFloat64Bits x)) := by
  obtain ⟨b1, b2, b3, b4, b5, b6, b7, b8, b9, b10, b11, b12, b13, b14, b15, b16⟩ :=
    golden_bits
  obtain ⟨v1, v2, v3, v4, v5, v6, v7, v8, v9, v10⟩ := golden_vals
  refine ⟨⟨?_, ?_⟩, ⟨?_, ?_⟩, ⟨?_, ?_⟩, ⟨?_, ?_⟩, ⟨?_, ?_⟩,
    ⟨b11, b12⟩, ⟨b13, b14⟩, ⟨b15, b16⟩, float_main⟩
  · rw [b1]; exact v1
  · rw [b2]; exact v2
  · rw [b3]; exact v3
  · rw [b4]; exact v4
  · rw [b5]; exact v5
  · rw [b6]; exact v6
  · rw [b7]; exact v7
  · rw [b8]; exact v8
  · rw [b9]; exact v9
  · rw [b10]; exact v10

/-- Witness for C6: the universally quantified part of the claim at the
pattern 0x3C00. -/
theorem spec_C6_witness :
    (0x3C00 : Nat) < 2 ^ 16 ∧
    ((float16ToFloat32Bits 0x3C00 < 2 ^ 32 ∧ float16ToFloat64Bits 0x3C00 < 2 ^ 64) ∧
      (exp16 0x3C00 ≠ 31 →
        val32 (float16ToFloat32Bits 0x3C00) = val64 (float16ToFloat64Bits 0x3C00))) :=
  ⟨by decide, spec_C6.2.2.2.2.2.2.2.2 0x3C00 (by decide)⟩

end Floats

namespace IRFunc

/-- Every digit produced by `digitsAux10` is below 10. -/
theorem digitsAux10_lt : ∀ (fuel n : Nat), ∀ d ∈ digitsAux10 fuel n, d < 10 := by
  intro fuel
  induction fuel with
  | zero =>
    intro n d hd
    cases n with
    | zero => simp [digitsAux10] at hd
    | succ k => simp [digitsAux10] at hd
  | succ f ih =>
    intro n d hd
    cases n with
    | zero => simp [digitsAux10] at hd
    | succ k =>
      simp only [digitsAux10, List.mem_cons] at hd
      rcases hd with h | h
      · omega
      · exact ih _ d h

/-- `fromDigits` recovers the number from its fuel-bounded digits. -/
theorem fromDigits_digitsAux10 : ∀ (fuel n : Nat), n ≤ fuel →
    fromDigits (digitsAux10 fuel n) = n := by
  intro fuel
  induction fuel with
  | zero =>
    intro n hn
    have : n = 0 := by omega
    subst this
    rfl
  | succ f ih =>
    intro n hn
    cases n with
    | zero => rfl
    | succ k =>
      have hrec := ih ((k + 1) / 10) (by omega)
      simp only [digitsAux10, fromDigits, hrec]
      omega

/-- `fromDigits` inverts `decDigits`. -/
theorem fromDigits_decDigits (n : Nat) : fromDigits (decDigits n) = n :=
  fromDigits_digitsAux10 n n le_rfl

/-- `decDigits` is injective. -/
theorem decDigits_inj (m n : Nat) (h : decDigits m = decDigits n) : m = n := by
  have := fromDigits_decDigits m
  rw [h, fromDigits_decDigits] at this
  omega

/-- `digitChar` is injective on digits. -/
theorem digitChar_inj : ∀ a : Nat, a < 10 → ∀ b : Nat, b < 10 →
    digitChar a = digitChar b → a = b := by
  decide

/-- Mapping `digitChar` over digit lists is injective. -/
theorem map_digitChar_inj : ∀ (l1 l2 : List Nat), (∀ d ∈ l1, d < 10) →
    (∀ d ∈ l2, d < 10) → l1.map digitChar = l2.map digitChar → l1 = l2 := by
  intro l1
  induction l1 with
  | nil =>
    intro l2 h1 h2 h
    cases l2 with
    | nil => rfl
    | cons b bs => simp at h
  | cons a as ih =>
    intro l2 h1 h2 h
    cases l2 with
    | nil => simp at h
    | cons b bs =>
      simp only [List.map_cons, List.cons.injEq] at h
      have ha : a = b := digitChar_inj a (h1 a (by simp)) b (h2 b (by simp)) h.1
      have hrest := ih bs (fun d hd => h1 d (by simp [hd]))
        (fun d hd => h2 d (by simp [hd])) h.2
      rw [ha, hrest]

/-- `itoa` is injective: distinct counters mint distinct identifiers. -/
theorem itoa_inj : ∀ m n : Nat, itoa m = itoa n → m = n := by
  have key : ∀ k : Nat, k ≠ 0 → itoa k ≠ "0" := by
    intro k hk h
    unfold itoa at h
    rw [if_neg hk] at h
    have hdata : (decDigits k).reverse.map digitChar = ['0'] := by
      have := congrArg String.data h
      simpa using this
    have hlen : (decDigits k).length = 1 := by
      have := congrArg List.length hdata
      simpa using this
    obtain ⟨d, hd⟩ : ∃ d, decDigits k = [d] := by
      cases hdk : decDigits k with
      | nil => rw [hdk] at hlen; simp at hlen
      | cons a as =>
        rw [hdk] at hlen
        have hnil : as = [] := by
          simp only [List.length_cons] at hlen
          exact List.eq_nil_of_length_eq_zero (by omega)
        exact ⟨a, by rw [hnil]⟩
    rw [hd] at hdata
    simp only [List.reverse_cons, List.reverse_nil, List.nil_append,
      List.map_cons, List.map_nil, List.cons.injEq, and_true] at hdata
    have hdlt : d < 10 := digitsAux10_lt k k d (by
      have h2 : digitsAux10 k k = [d] := hd
      rw [h2]
      simp)
    have hd0 : d = 0 := digitChar_inj d hdlt 0 (by norm_num) hdata
    have := fromDigits_decDigits k
    rw [hd, hd0] at this
    simp [fromDigits] at this
    omega
  intro m n h
  by_cases hm : m = 0 <;> by_cases hn : n = 0
  · omega
  · subst hm
    exact absurd h.symm (key n hn)
  · subst hn
    exact absurd h (key m hm)
  · unfold itoa at h
    rw [if_neg hm, if_neg hn] at h
    have hdata := congrArg String.data h
    simp only [String.data] at hdata
    have hrev : (decDigits m).reverse.map digitChar = (decDigits n).reverse.map digitChar := by
      exact hdata
    have hrev2 := map_digitChar_inj _ _
      (fun d hd => digitsAux10_lt m m d (List.mem_reverse.mp hd))
      (fun d hd => digitsAux10_lt n n d (List.mem_reverse.mp hd)) hrev
    have : decDigits m = decDigits n := by
      have := congrArg List.reverse hrev2
      simpa using this
    exact decDigits_inj m n this

/-- `assignInst` only increments the counter (and touches nothing else of
the function). -/
theorem assignInst_localID (f : Function) (i : Inst) :
    f.localID ≤ (assignInst f i).1.localID ∧
    (assignInst f i).1.blocks = f.blocks ∧
    (assignInst f i).1.name = f.name := by
  unfold assignInst
  split
  · exact ⟨by simp [Function.nextID], rfl, rfl⟩
  · exact ⟨le_rfl, rfl, rfl⟩

/-- `assignInsts` only increments the counter. -/
theorem assignInsts_localID : ∀ (l : List Inst) (f : Function),
    f.localID ≤ (assignInsts f l).1.localID ∧
    (assignInsts f l).1.blocks = f.blocks ∧
    (assignInsts f l).1.name = f.name := by
  intro l
  induction l with
  | nil => intro f; exact ⟨le_rfl, rfl, rfl⟩
  | cons i rest ih =>
    intro f
    have h1 := assignInst_localID f i
    have h2 := ih (assignInst f i).1
    unfold assignInsts
    exact ⟨le_trans h1.1 h2.1, h2.2.1.trans h1.2.1, h2.2.2.trans h1.2.2⟩

/-- `blockAssignIDs` only increments the counter. -/
theorem blockAssignIDs_localID (f : Function) (b : BasicBlock) :
    ∀ f' b', blockAssignIDs f b = .ok (f', b') →
    f.localID ≤ f'.localID ∧ f'.blocks = f.blocks ∧ f'.name = f.name := by
  intro f' b' h
  unfold blockAssignIDs at h
  set p := if b.name == "" then
      let q := f.nextID
      (q.2, q.1)
    else
      (f, b.name) with hp
  have hple : f.localID ≤ p.1.localID ∧ p.1.blocks = f.blocks ∧ p.1.name = f.name := by
    rw [hp]
    split
    · exact ⟨by simp [Function.nextID], rfl, rfl⟩
    · exact ⟨le_rfl, rfl, rfl⟩
  have hins := assignInsts_localID b.insts p.1
  simp only [Except.ok.injEq, Prod.mk.injEq] at h
  obtain ⟨hf', _⟩ := h
  subst hf'
  exact ⟨le_trans hple.1 hins.1, hins.2.1.trans hple.2.1, hins.2.2.trans hple.2.2⟩

/-- `assignLoop` with the spec-modelled per-block assignment only
increments the counter. -/
theorem assignLoop_localID : ∀ (bs : List BasicBlock) (f : Function),
    f.localID ≤ (assignLoop blockAssignIDs f bs).1.localID ∧
    (assignLoop blockAssignIDs f bs).1.blocks = f.blocks ∧
    (assignLoop blockAssignIDs f bs).1.name = f.name := by
  intro bs
  induction bs with
  | nil => intro f; exact ⟨le_rfl, rfl, rfl⟩
  | cons b rest ih =>
    intro f
    unfold assignLoop
    cases hb : blockAssignIDs f b with
    | error e => exact ⟨le_rfl, rfl, rfl⟩
    | ok r =>
      have h1 := blockAssignIDs_localID f b r.1 r.2 (by rw [hb])
      have h2 := ih r.1
      exact ⟨le_trans h1.1 h2.1, h2.2.1.trans h1.2.1, h2.2.2.trans h1.2.2⟩

/-- `AssignIDs` and `SetBlocks` only increment the counter. -/
theorem assignIDs_localID (f : Function) :
    f.localID ≤ f.AssignIDs.1.localID := by
  unfold Function.AssignIDs Function.AssignIDsWith
  cases f.blocks with
  | none => exact le_rfl
  | some bs => exact (assignLoop_localID bs f).1

/-- `SetBlocks` only increments the counter. -/
theorem setBlocks_localID (f : Function) (blocks : List BasicBlock) :
    f.localID ≤ (f.SetBlocks blocks).1.localID := by
  unfold Function.SetBlocks Function.SetBlocksWith Function.AssignIDsWith
  simp only
  have h := (assignLoop_localID
    (blocks.map fun b => { b with parent := some f.name })
    { f with blocks := some (blocks.map fun b => { b with parent := some f.name }) }).1
  exact h

/-- C10: the private `localID` counter is monotonically non-decreasing
under `SetBlocks`, `AppendBlock` and `AssignIDs` (also along any sequence
of such operations), `nextID` mints the decimal string of the counter and
increments it, and distinct counters mint distinct identifiers — so no two
`nextID` calls can return the same identifier. -/
theorem spec_C10 :
    (∀ (f : Function) (op : FnOp), f.localID ≤ (applyOp f op).localID) ∧
    (∀ (f : Function) (ops : List FnOp),
      f.localID ≤ (ops.foldl applyOp f).localID) ∧
    (∀ f : Function, f.nextID.1 = itoa f.localID ∧
      f.nextID.2.localID = f.localID + 1) ∧
    (∀ c c' : Nat, c ≠ c' → itoa c ≠ itoa c') := by
  have hop : ∀ (f : Function) (op : FnOp), f.localID ≤ (applyOp f op).localID := by
    intro f op
    cases op with
    | setBlocks bs => exact setBlocks_localID f bs
    | appendBlock b => exact le_rfl
    | assignIDs => exact assignIDs_localID f
  refine ⟨hop, ?_, fun f => ⟨rfl, rfl⟩, fun c c' hne h => hne (itoa_inj c c' h)⟩
  intro f ops
  induction ops generalizing f with
  | nil => exact le_rfl
  | cons op rest ih =>
    exact le_trans (hop f op) (ih (applyOp f op))

/-- Witness for C10: applied along a concrete operation sequence from a
fresh function, and to the distinctness of the first two minted
identifiers. -/
theorem spec_C10_witness :
    (NewFunction ("f") { params := [], result := .void, variadic := false }).localID ≤
      ([FnOp.appendBlock { name := "", parent := none, insts := [] },
        FnOp.assignIDs].foldl applyOp
        (NewFunction ("f") { params := [], result := .void, variadic := false })).localID ∧
    ((0 : Nat) ≠ 1 ∧ itoa 0 ≠ itoa 1) := by
  refine ⟨spec_C10.2.1 _ _, by decide, spec_C10.2.2.2 0 1 (by decide)⟩

/-- A generic `assignLoop` preserves the number of blocks and (when the
per-block assignment preserves parents) each block's parent. -/
theorem assignLoop_parents
    (assign : Function → BasicBlock → Except String (Function × BasicBlock))
    (hpar : ∀ g b g' b', assign g b = .ok (g', b') → b'.parent = b.parent) :
    ∀ (bs : List BasicBlock) (f : Function) (p : Option String),
    (∀ b ∈ bs, b.parent = p) →
    (assignLoop assign f bs).2.1.length = bs.length ∧
    (∀ b ∈ (assignLoop assign f bs).2.1, b.parent = p) := by
  intro bs
  induction bs with
  | nil => intro f p hp; exact ⟨rfl, by intro b hb; simp [assignLoop] at hb⟩
  | cons b rest ih =>
    intro f p hp
    unfold assignLoop
    cases hb : assign f b with
    | error e =>
      refine ⟨rfl, ?_⟩
      intro b' hb'
      exact hp b' hb'
    | ok r =>
      have hr := ih r.1 p (fun x hx => hp x (by simp [hx]))
      refine ⟨by simpa using hr.1, ?_⟩
      intro b' hb'
      simp only [List.mem_cons] at hb'
      rcases hb' with h | h
      · rw [h]
        exact (hpar f b r.1 r.2 (by rw [hb])).trans (hp b (by simp))
      · exact hr.2 b' h

/-- C7: when identifier assignment triggered by `SetBlocks` fails, the
error is returned to the caller unchanged, and the function's block list —
with every block's parent back-reference set to the function — remains
installed, not rolled back. -/
theorem spec_C7
    (assign : Function → BasicBlock → Except String (Function × BasicBlock))
    (hpar : ∀ g b g' b', assign g b = .ok (g', b') → b'.parent = b.parent)
    (f : Function) (blocks : List BasicBlock) :
    (∀ e, (Function.AssignIDsWith assign
        { f with blocks := some (blocks.map fun b => { b with parent := some f.name }) }).2
          = some e →
      (f.SetBlocksWith assign blocks).2 = some e) ∧
    ((f.SetBlocksWith assign blocks).1.blocks).isSome = true ∧
    (((f.SetBlocksWith assign blocks).1.blocks).getD []).length = blocks.length ∧
    (∀ b ∈ ((f.SetBlocksWith assign blocks).1.blocks).getD [],
      b.parent = some f.name) := by
  have hset : f.SetBlocksWith assign blocks
      = Function.AssignIDsWith assign
        { f with blocks := some (blocks.map fun b => { b with parent := some f.name }) } := rfl
  have hpar0 : ∀ b ∈ blocks.map fun b => { b with parent := some f.name },
      b.parent = some f.name := by
    intro b hb
    simp only [List.mem_map] at hb
    obtain ⟨a, _, ha⟩ := hb
    rw [← ha]
  have hloop := assignLoop_parents assign hpar
    (blocks.map fun b => { b with parent := some f.name })
    { f with blocks := some (blocks.map fun b => { b with parent := some f.name }) }
    (some f.name) hpar0
  refine ⟨fun e he => by rw [hset]; exact he, ?_, ?_, ?_⟩
  · rw [hset]
    unfold Function.AssignIDsWith
    simp only
    rfl
  · rw [hset]
    unfold Function.AssignIDsWith
    simp only [Option.getD_some]
    rw [hloop.1]
    simp
  · rw [hset]
    unfold Function.AssignIDsWith
    simp only [Option.getD_some]
    exact hloop.2

/-- Witness for C7: a per-block assignment that always fails, on a fresh
function and one block — the error surfaces unchanged and the block stays
installed with its parent set. -/
theorem spec_C7_witness :
    (((NewFunction ("g") { params := [], result := .void, variadic := false }).SetBlocksWith
        alwaysFailAssign [{ name := "", parent := none, insts := [] }]).2 = some ("boom")) ∧
    ((((NewFunction ("g") { params := [], result := .void, variadic := false }).SetBlocksWith
        alwaysFailAssign [{ name := "", parent := none, insts := [] }]).1.blocks).getD []).length = 1 := by
  have h := spec_C7 alwaysFailAssign
    (by intro g b g' b' hok; exact absurd hok (by simp [alwaysFailAssign]))
    (NewFunction ("g") { params := [], result := .void, variadic := false })
    [{ name := "", parent := none, insts := [] }]
  exact ⟨h.1 ("boom") rfl, h.2.2.1⟩

/-- `String.join` distributes over cons. -/
theorem stringJoin_cons (s : String) (l : List String) :
    String.join (s :: l) = s ++ String.join l := by
  apply String.ext
  simp [String.join_eq]

/-- From position 1 on, the parameter loop writes `, ` before every
entry. -/
theorem paramsLoop_pos : ∀ (rest : List String) (i : Nat), 1 ≤ i →
    paramsLoop i rest = String.join (rest.map fun q => ", " ++ q) := by
  intro rest
  induction rest with
  | nil => intro i hi; rfl
  | cons p r ih =>
    intro i hi
    unfold paramsLoop
    rw [if_pos (by omega), ih (i + 1) (by omega)]
    rw [List.map_cons, stringJoin_cons, String.append_assoc]

/-- The parameter loop from position 0 is the spec's comma-join. -/
theorem paramsLoop_eq_commaJoin : ∀ ps : List String,
    paramsLoop 0 ps = commaJoin ps := by
  intro ps
  cases ps with
  | nil => rfl
  | cons p r =>
    unfold paramsLoop commaJoin
    rw [if_neg (by omega), paramsLoop_pos r 1 le_rfl]
    apply String.ext
    simp

/-- C5: `Function.String` prints a nil-block function as
`declare <result> <identifier>(<params>)` and a function with blocks as
`define <result> <identifier>(<params>) {`, each block's text on its own
line, then `}`; the parameter list is the comma-join of the parameter
types, with a trailing `...` exactly when the signature is variadic,
preceded by `, ` exactly when at least one fixed parameter exists. -/
theorem spec_C5 : ∀ (render : BasicBlock → String) (f : Function),
    (f.blocks = none → f.StringWith render
      = "declare " ++ typeString f.sig.result ++ " " ++ Global f.name ++ "("
        ++ (commaJoin (f.sig.params.map typeString)
          ++ (if f.sig.variadic then
                (if f.sig.params.isEmpty then "..." else ", ...")
              else "")) ++ ")") ∧
    (∀ bs, f.blocks = some bs → f.StringWith render
      = "define " ++ typeString f.sig.result ++ " " ++ Global f.name ++ "("
        ++ (commaJoin (f.sig.params.map typeString)
          ++ (if f.sig.variadic then
                (if f.sig.params.isEmpty then "..." else ", ...")
              else "")) ++ ") \x7b\n"
        ++ String.join (bs.map fun b => render b ++ "\n") ++ "\x7d") := by
  intro render f
  have hsuffix :
      (if f.sig.variadic then
        (if f.sig.params.length > 0 then ", " else "") ++ "..."
      else "")
      = (if f.sig.variadic then
          (if f.sig.params.isEmpty then "..." else ", ...")
        else "") := by
    cases f.sig.variadic
    · rfl
    · simp only [if_true]
      cases hps : f.sig.params with
      | nil => rfl
      | cons p r =>
        simp only [List.length_cons, List.isEmpty_cons]
        rw [if_pos (by omega), if_neg (by simp)]
        rfl
  have hparams : paramsLoop 0 (f.sig.params.map typeString) ++
      (if f.sig.variadic then
        (if f.sig.params.length > 0 then ", " else "") ++ "..."
      else "")
      = commaJoin (f.sig.params.map typeString)
        ++ (if f.sig.variadic then
            (if f.sig.params.isEmpty then "..." else ", ...")
          else "") := by
    rw [paramsLoop_eq_commaJoin, hsuffix]
  constructor
  · intro hnone
    unfold Function.StringWith
    rw [hnone]
    simp only
    rw [hparams]
    simp [String.append_assoc, Function.ValueString]
  · intro bs hsome
    unfold Function.StringWith
    rw [hsome]
    simp only
    rw [hparams]
    simp [String.append_assoc, Function.ValueString]

/-- Witness for C5: the variadic declaration
`declare i32 @printf(i8*, ...)` — the general shape instantiated at the
concrete signature, and the fully evaluated output string. -/
theorem spec_C5_witness :
    (NewFunction ("printf")
      { params := [LLIR.LType.pointer (.int 8)], result := .int 32,
        variadic := true }).blocks = none ∧
    (NewFunction ("printf")
      { params := [LLIR.LType.pointer (.int 8)], result := .int 32,
        variadic := true }).StringWith BasicBlock.render
      = "declare " ++ typeString (.int 32) ++ " " ++ Global ("printf") ++ "("
        ++ (commaJoin ([LLIR.LType.pointer (.int 8)].map typeString)
          ++ (if true then
                (if ([LLIR.LType.pointer (.int 8)] : List LLIR.LType).isEmpty
                  then "..." else ", ...")
              else "")) ++ ")" ∧
    (NewFunction ("printf")
      { params := [LLIR.LType.pointer (.int 8)], result := .int 32,
        variadic := true }).StringWith BasicBlock.render
      = "declare i32 @printf(i8*, ...)" := by
  refine ⟨rfl, (spec_C5 BasicBlock.render _).1 rfl, ?_⟩
  rfl

/-- `countUnnamed` on a cons. -/
theorem countUnnamed_cons (res : Bool) (nm : String) (l : List (Bool × String)) :
    countUnnamed ((res, nm) :: l)
      = if res && nm == "" then countUnnamed l + 1 else countUnnamed l := by
  unfold countUnnamed
  rw [List.filter_cons]
  split
  · simp
  · rfl

/-- `countUnnamed` is additive over append. -/
theorem countUnnamed_append (l1 l2 : List (Bool × String)) :
    countUnnamed (l1 ++ l2) = countUnnamed l1 + countUnnamed l2 := by
  unfold countUnnamed
  rw [List.filter_append, List.length_append]

/-- `specAssign` on a cons. -/
theorem specAssign_cons (c : Nat) (res : Bool) (nm : String)
    (l : List (Bool × String)) :
    specAssign c ((res, nm) :: l)
      = if res && nm == "" then (res, itoa c) :: specAssign (c + 1) l
        else (res, nm) :: specAssign c l := rfl

/-- `specAssign` distributes over append, advancing the counter by the
unnamed count of the first part. -/
theorem specAssign_append : ∀ (l1 l2 : List (Bool × String)) (c : Nat),
    specAssign c (l1 ++ l2)
      = specAssign c l1 ++ specAssign (c + countUnnamed l1) l2 := by
  intro l1
  induction l1 with
  | nil =>
    intro l2 c
    simp [specAssign, countUnnamed]
  | cons p rest ih =>
    intro l2 c
    obtain ⟨res, nm⟩ := p
    rw [countUnnamed_cons, List.cons_append, specAssign_cons, specAssign_cons]
    split
    · rw [ih]
      simp only [List.cons_append, List.cons.injEq, true_and]
      congr 2
      omega
    · rw [ih]
      simp [List.cons_append]

/-- The instruction pass implements the spec's single pass on the
instruction entity sequence and advances the counter by the number of
unnamed result-producing instructions. -/
theorem assignInsts_entities : ∀ (l : List Inst) (f : Function),
    ((assignInsts f l).2.map fun i => (i.producesResult, i.name))
      = specAssign f.localID (l.map fun i => (i.producesResult, i.name)) ∧
    (assignInsts f l).1.localID
      = f.localID + countUnnamed (l.map fun i => (i.producesResult, i.name)) := by
  intro l
  induction l with
  | nil => intro f; exact ⟨rfl, by simp [assignInsts, countUnnamed]⟩
  | cons i rest ih =>
    intro f
    simp only [assignInsts, List.map_cons, specAssign_cons, countUnnamed_cons]
    unfold assignInst Function.nextID
    by_cases hc : i.producesResult && i.name == ""
    · rw [if_pos hc, if_pos hc, if_pos hc]
      have hrec := ih { f with localID := f.localID + 1 }
      simp only [List.map_cons]
      constructor
      · rw [hrec.1]
      · rw [hrec.2]
        have hproj : ({ f with localID := f.localID + 1 } : Function).localID
            = f.localID + 1 := rfl
        rw [hproj]
        omega
    · rw [if_neg hc, if_neg hc, if_neg hc]
      have hrec := ih f
      simp only [List.map_cons]
      exact ⟨by rw [hrec.1], by rw [hrec.2]⟩

/-- The per-block pass implements the spec's single pass on the block's
entity sequence (label first, then instructions). -/
theorem blockAssign_entities (f : Function) (b : BasicBlock) :
    ∀ f' b', blockAssignIDs f b = .ok (f', b') →
    ((true, b'.name) :: b'.insts.map fun i => (i.producesResult, i.name))
      = specAssign f.localID
          ((true, b.name) :: b.insts.map fun i => (i.producesResult, i.name)) ∧
    f'.localID = f.localID
      + countUnnamed ((true, b.name) :: b.insts.map fun i => (i.producesResult, i.name)) := by
  intro f' b' h
  rw [specAssign_cons, countUnnamed_cons]
  unfold blockAssignIDs Function.nextID at h
  by_cases hc : b.name == ""
  · rw [if_pos hc] at h
    simp only [Except.ok.injEq, Prod.mk.injEq] at h
    obtain ⟨hf', hb'⟩ := h
    have hrec := assignInsts_entities b.insts { f with localID := f.localID + 1 }
    have hproj : ({ f with localID := f.localID + 1 } : Function).localID
        = f.localID + 1 := rfl
    rw [if_pos (by simp only [Bool.true_and]; exact hc),
      if_pos (by simp only [Bool.true_and]; exact hc)]
    subst hf'
    subst hb'
    constructor
    · simp only
      rw [hrec.1, hproj]
    · rw [hrec.2, hproj]
      omega
  · rw [if_neg hc] at h
    simp only [Except.ok.injEq, Prod.mk.injEq] at h
    obtain ⟨hf', hb'⟩ := h
    have hrec := assignInsts_entities b.insts f
    rw [if_neg (by simp only [Bool.true_and]; exact hc),
      if_neg (by simp only [Bool.true_and]; exact hc)]
    subst hf'
    subst hb'
    constructor
    · simp only
      rw [hrec.1]
    · rw [hrec.2]

/-- `entities` on a cons of blocks. -/
theorem entities_cons (b : BasicBlock) (rest : List BasicBlock) :
    entities (b :: rest)
      = ((true, b.name) :: b.insts.map fun i => (i.producesResult, i.name))
        ++ entities rest := by
  simp [entities]

/-- The spec-modelled per-block assignment always succeeds. -/
theorem blockAssignIDs_ok (f : Function) (b : BasicBlock) :
    ∃ f' b', blockAssignIDs f b = .ok (f', b') :=
  ⟨_, _, rfl⟩

/-- The assignment loop implements the spec's single pass on the flattened
entity sequence, never errors, and advances the counter by the total
unnamed count. -/
theorem assignLoop_entities : ∀ (bs : List BasicBlock) (f : Function),
    entities (assignLoop blockAssignIDs f bs).2.1
      = specAssign f.localID (entities bs) ∧
    (assignLoop blockAssignIDs f bs).1.localID
      = f.localID + countUnnamed (entities bs) ∧
    (assignLoop blockAssignIDs f bs).2.2 = none := by
  intro bs
  induction bs with
  | nil =>
    intro f
    refine ⟨rfl, by simp [assignLoop, entities, countUnnamed], rfl⟩
  | cons b rest ih =>
    intro f
    obtain ⟨f', b', hb⟩ := blockAssignIDs_ok f b
    have hent := blockAssign_entities f b f' b' hb
    unfold assignLoop
    rw [hb]
    simp only
    have hrec := ih f'
    rw [entities_cons, entities_cons, specAssign_append, countUnnamed_append]
    refine ⟨?_, ?_, hrec.2.2⟩
    · rw [hrec.1, ← hent.1, hent.2]
    · rw [hrec.2.1, hent.2]
      omega

/-- Setting parents does not change the entity sequence. -/
theorem entities_map_parent (blocks : List BasicBlock) (p : Option String) :
    entities (blocks.map fun b => { b with parent := p }) = entities blocks := by
  induction blocks with
  | nil => rfl
  | cons b rest ih =>
    rw [List.map_cons, entities_cons, entities_cons, ih]

/-- The names handed out by the spec's pass are exactly the decimal strings
of the consecutive counters. -/
theorem mintedNames_specAssign : ∀ (l : List (Bool × String)) (c : Nat),
    mintedNames l (specAssign c l)
      = (List.range' c (countUnnamed l)).map itoa := by
  intro l
  induction l with
  | nil => intro c; rfl
  | cons p rest ih =>
    intro c
    obtain ⟨res, nm⟩ := p
    rw [specAssign_cons, countUnnamed_cons]
    by_cases hc : res && nm == ""
    · rw [if_pos hc, if_pos hc]
      unfold mintedNames
      simp only [List.zip_cons_cons, List.filterMap_cons, hc, if_true]
      have hih := ih (c + 1)
      unfold mintedNames at hih
      rw [hih, List.range'_succ, List.map_cons]
    · rw [if_neg hc, if_neg hc]
      unfold mintedNames
      simp only [List.zip_cons_cons, List.filterMap_cons, hc, if_false]
      have hih := ih c
      unfold mintedNames at hih
      rw [hih]
      simp

/-- The spec's pass leaves every entity that is named or produces no
result untouched, position by position. -/
theorem specAssign_get_untouched : ∀ (l : List (Bool × String)) (c i : Nat)
    (res : Bool) (nm : String), l.get? i = some (res, nm) →
    (res && nm == "") = false → (specAssign c l).get? i = some (res, nm) := by
  intro l
  induction l with
  | nil => intro c i res nm h _; simp at h
  | cons p rest ih =>
    intro c i res nm h hc
    obtain ⟨r0, n0⟩ := p
    rw [specAssign_cons]
    cases i with
    | zero =>
      simp only [List.get?_cons_zero, Option.some.injEq, Prod.mk.injEq] at h
      obtain ⟨hr, hn⟩ := h
      subst hr
      subst hn
      rw [if_neg (by rw [hc]; simp)]
      rfl
    | succ j =>
      simp only [List.get?_cons_succ] at h
      split
      · simpa using ih (c + 1) j res nm h hc
      · simpa using ih c j res nm h hc

/-- C4: identifier assignment, as run by `SetBlocks` on a freshly
constructed function, performs the single block-major, instruction-minor
pass of the spec: the flattened entity sequence afterwards equals the
spec's single pass from counter 0; the previously unnamed entities receive,
in order, exactly the decimal identifiers of 0, 1, 2, …; and every entity
that carried a name (or produces no result) is untouched at its
position. -/
theorem spec_C4 : ∀ (name : String) (sig : FuncSig) (blocks : List BasicBlock)
    (f' : Function) (err : Option String),
    (NewFunction name sig).SetBlocks blocks = (f', err) →
    err = none ∧
    ∃ bs', f'.blocks = some bs' ∧
      entities bs' = specAssign 0 (entities blocks) ∧
      mintedNames (entities blocks) (entities bs')
        = (List.range (countUnnamed (entities blocks))).map itoa ∧
      (∀ (i : Nat) (res : Bool) (nm : String),
        (entities blocks).get? i = some (res, nm) → (res && nm == "") = false →
        (entities bs').get? i = some (res, nm)) := by
  intro name sig blocks f' err h
  have hrun : (NewFunction name sig).SetBlocks blocks
      = ({ (assignLoop blockAssignIDs
            { NewFunction name sig with
              blocks := some (blocks.map fun b => { b with parent := some name }) }
            (blocks.map fun b => { b with parent := some name })).1 with
          blocks := some (assignLoop blockAssignIDs
            { NewFunction name sig with
              blocks := some (blocks.map fun b => { b with parent := some name }) }
            (blocks.map fun b => { b with parent := some name })).2.1 },
        (assignLoop blockAssignIDs
          { NewFunction name sig with
            blocks := some (blocks.map fun b => { b with parent := some name }) }
          (blocks.map fun b => { b with parent := some name })).2.2) := rfl
  rw [hrun] at h
  have hf' := congrArg Prod.fst h
  have herr := congrArg Prod.snd h
  simp only at hf' herr
  have hle := assignLoop_entities
    (blocks.map fun b => { b with parent := some name })
    { NewFunction name sig with
      blocks := some (blocks.map fun b => { b with parent := some name }) }
  have hents : entities (blocks.map fun b => { b with parent := some name })
      = entities blocks := entities_map_parent blocks (some name)
  have hID : ({ NewFunction name sig with
      blocks := some (blocks.map fun b => { b with parent := some name }) }
        : Function).localID = 0 := rfl
  rw [hents, hID] at hle
  constructor
  · rw [← herr]
    exact hle.2.2
  · refine ⟨(assignLoop blockAssignIDs
      { NewFunction name sig with
        blocks := some (blocks.map fun b => { b with parent := some name }) }
      (blocks.map fun b => { b with parent := some name })).2.1, ?_, ?_, ?_, ?_⟩
    · rw [← hf']
    · exact hle.1
    · rw [hle.1, mintedNames_specAssign, List.range_eq_range']
    · intro i res nm hget hres
      rw [hle.1]
      exact specAssign_get_untouched (entities blocks) 0 i res nm hget hres

/-- Witness for C4: a fresh function given two blocks — one unnamed block
holding an unnamed result-producing instruction, an unnamed no-result
instruction and an instruction named `x`; one block named `entry` holding
an unnamed result-producing instruction.  The unnamed block and the two
unnamed result-producing instructions receive 0, 1, 2 in
block-then-instruction order; the named entities and the no-result
instruction keep their names. -/
theorem spec_C4_witness :
    ((NewFunction ("f") { params := [], result := .void, variadic := false }).SetBlocks
      [{ name := "", parent := none,
         insts := [{ name := "", producesResult := true },
                   { name := "", producesResult := false },
                   { name := "x", producesResult := true }] },
       { name := "entry", parent := none,
         insts := [{ name := "", producesResult := true }] }]).2 = none ∧
    ((((NewFunction ("f") { params := [], result := .void, variadic := false }).SetBlocks
      [{ name := "", parent := none,
         insts := [{ name := "", producesResult := true },
                   { name := "", producesResult := false },
                   { name := "x", producesResult := true }] },
       { name := "entry", parent := none,
         insts := [{ name := "", producesResult := true }] }]).1.blocks).getD []).flatMap
      (fun b => b.name :: b.insts.map Inst.name)
      = [itoa 0, itoa 1, "", "x", "entry", itoa 2] := by
  have h := spec_C4 ("f") { params := [], result := .void, variadic := false }
    [{ name := "", parent := none,
       insts := [{ name := "", producesResult := true },
                 { name := "", producesResult := false },
                 { name := "x", producesResult := true }] },
     { name := "entry", parent := none,
       insts := [{ name := "", producesResult := true }] }]
    _ _ rfl
  exact ⟨h.1, by rfl⟩

end IRFunc
